import Mathlib

/-!
Verification of the per-block CPFP counter and its driver from
`count_cpfps.py`. The script's per-block computation `get_block_data`
(lines 40-84), the driver's running aggregate (lines 89-122) and the
final report (lines 124-133) are embedded as executable Lean functions,
and the specified properties are proved or refuted below.
-/

set_option maxRecDepth 4000

namespace CountCpfps

/-- A transaction: its identifier (`txid`) and the list of its inputs
(`vin`). An input is `none` when its JSON object carries no `"txid"`
field (a coinbase input) and `some r` when it references the
transaction with identifier `r`. -/
structure Tx where
  txid : String
  vin : List (Option String)
deriving DecidableEq

/-- The tuple returned by `get_block_data` (line 84) for a block that is
not skipped, in the source's component order. -/
structure BlockStats where
  txs_count : Nat
  child_count : Nat
  parent_count : Nat
  candidates_count : Nat
  candidates_parent_count : Nat
deriving DecidableEq

/-- `set(tx["txid"] for tx in block_txs)` (line 54): the set of all
transaction identifiers appearing in the block. -/
def block_txids (block_txs : List Tx) : Finset String :=
  (block_txs.map Tx.txid).toFinset

/-- One step of the inner loop over `tx["vin"]` (lines 68-80). The
state is `(is_child, child_count, parent_txids)`: an input without a
txid is skipped (line 70); an input whose txid is in the block marks
the parent (lines 75-76, guarded insertion) and then marks the child
once (lines 78-80). -/
def scan_vin (btxids : Finset String) (acc : Bool × Nat × Finset String)
    (txin : Option String) : Bool × Nat × Finset String :=
  match txin with
  | none => acc
  | some ref =>
    if ref ∈ btxids then
      let parent_txids := if ref ∉ acc.2.2 then insert ref acc.2.2 else acc.2.2
      if acc.1 then (true, acc.2.1, parent_txids)
      else (true, acc.2.1 + 1, parent_txids)
    else acc

/-- The running state of the outer loop of `get_block_data`
(lines 61-63). -/
structure ScanState where
  child_count : Nat
  parent_txids : Finset String
  candidates_txids : Finset String
deriving DecidableEq

/-- One iteration of the outer loop (lines 64-82): scan the inputs of
`tx`, and if `tx` was never marked a child record it as a
fee-estimation candidate (lines 81-82). -/
def process_tx (btxids : Finset String) (st : ScanState) (tx : Tx) : ScanState :=
  let res := tx.vin.foldl (scan_vin btxids) (false, st.child_count, st.parent_txids)
  { child_count := res.2.1
    parent_txids := res.2.2
    candidates_txids :=
      if res.1 then st.candidates_txids else insert tx.txid st.candidates_txids }

/-- The per-block computation of `get_block_data` (lines 52-84), from
the block's transaction list onward (the RPC fetch is the external
collaborator). Returns `none` for a block whose identifier set is a
singleton (lines 57-59) and otherwise the counts of line 84. -/
def get_block_data (block_txs : List Tx) : Option BlockStats :=
  let btxids := block_txids block_txs
  let txs_count := btxids.card
  if txs_count = 1 then none
  else
    let st := block_txs.foldl (process_tx btxids) ⟨0, ∅, ∅⟩
    some ⟨txs_count, st.child_count, st.parent_txids.card, st.candidates_txids.card,
      (st.parent_txids ∩ st.candidates_txids).card⟩

/-- `child_count / txs_count * 100` (line 113), with real division
modelled on `ℚ`. -/
def child_percentage (s : BlockStats) : ℚ :=
  (s.child_count : ℚ) / (s.txs_count : ℚ) * 100

/-- `parent_count / txs_count * 100` (line 118). -/
def parent_percentage (s : BlockStats) : ℚ :=
  (s.parent_count : ℚ) / (s.txs_count : ℚ) * 100

/-- The driver's mutable accumulator variables (lines 29-37). -/
structure Aggregate where
  total_transactions : Nat
  total_child_count : Nat
  total_parent_count : Nat
  min_child_percentage : Option ℚ
  max_child_percentage : ℚ
  min_parent_percentage : Option ℚ
  max_parent_percentage : ℚ
  candidate_count : Nat
  candidate_parent_count : Nat
deriving DecidableEq

/-- The initial values of the accumulator variables (lines 29-37):
totals zero, minima `None`, maxima zero. -/
def initAggregate : Aggregate := ⟨0, 0, 0, none, 0, none, 0, 0, 0⟩

/-- `if pct > current: current = pct` (lines 116-117 and 121-122). -/
def updateMax (current pct : ℚ) : ℚ := if pct > current then pct else current

/-- `if current is None or pct < current: current = pct`
(lines 114-115 and 119-120). -/
def updateMin (current : Option ℚ) (pct : ℚ) : Option ℚ :=
  match current with
  | none => some pct
  | some m => if pct < m then some pct else some m

/-- One iteration of the driver's result loop (lines 99-122): a `None`
result (empty block) is skipped entirely (lines 101-102); otherwise the
totals (lines 106-110) and the bounds (lines 113-122) are updated. -/
def updateAggregate (agg : Aggregate) (res : Option BlockStats) : Aggregate :=
  match res with
  | none => agg
  | some s =>
    { total_transactions := agg.total_transactions + s.txs_count
      total_child_count := agg.total_child_count + s.child_count
      total_parent_count := agg.total_parent_count + s.parent_count
      candidate_count := agg.candidate_count + s.candidates_count
      candidate_parent_count := agg.candidate_parent_count + s.candidates_parent_count
      min_child_percentage := updateMin agg.min_child_percentage (child_percentage s)
      max_child_percentage := updateMax agg.max_child_percentage (child_percentage s)
      min_parent_percentage := updateMin agg.min_parent_percentage (parent_percentage s)
      max_parent_percentage := updateMax agg.max_parent_percentage (parent_percentage s) }

/-- The driver's whole result loop over the per-block results, in
submission order (lines 94-122). -/
def run_aggregate (results : List (Option BlockStats)) : Aggregate :=
  results.foldl updateAggregate initAggregate

/-- The driver applied to a list of blocks: each block goes through
`get_block_data` and the results are folded in order. -/
def fold_blocks (blocks : List (List Tx)) : Aggregate :=
  (blocks.map get_block_data).foldl updateAggregate initAggregate

/-- The run-time faults the final report can raise: Python's
`ZeroDivisionError` from `/` on zero, and `AssertionError` from the
`assert` on line 129. -/
inductive RunError where
  | zeroDivisionError
  | assertionError
deriving DecidableEq

/-- Python division: raises `ZeroDivisionError` on a zero denominator,
otherwise the exact quotient. -/
def pydiv (a b : ℚ) : Except RunError ℚ :=
  if b = 0 then Except.error RunError.zeroDivisionError else Except.ok (a / b)

/-- The values printed by the final report (lines 124-133), in print
order. -/
structure Report where
  avg_parent_pct : ℚ
  avg_child_pct : ℚ
  max_parent_pct : ℚ
  max_child_pct : ℚ
  min_parent_pct : ℚ
  min_child_pct : ℚ
  avg_candidate_pct : ℚ
  avg_candidate_parent_pct : ℚ
deriving DecidableEq

/-- The final report (lines 124-133), evaluated in source order: the
two averages over `total_transactions` (lines 125-126), the maxima
(lines 127-128), the assertion that both minima are set (line 129), the
minima (lines 130-131), the candidate average (line 132) and the
candidate-parent average over `candidate_count` (line 133). The first
fault encountered in this order is the result. -/
def final_report (agg : Aggregate) : Except RunError Report := do
  let avg_parent ← pydiv (agg.total_parent_count : ℚ) (agg.total_transactions : ℚ)
  let avg_child ← pydiv (agg.total_child_count : ℚ) (agg.total_transactions : ℚ)
  match agg.min_parent_percentage, agg.min_child_percentage with
  | some min_parent, some min_child => do
    let avg_candidate ← pydiv (agg.candidate_count : ℚ) (agg.total_transactions : ℚ)
    let avg_candidate_parent ←
      pydiv (agg.candidate_parent_count : ℚ) (agg.candidate_count : ℚ)
    Except.ok ⟨avg_parent * 100, avg_child * 100, agg.max_parent_percentage,
      agg.max_child_percentage, min_parent, min_child, avg_candidate * 100,
      avg_candidate_parent * 100⟩
  | _, _ => Except.error RunError.assertionError

/-- `START_BLOCK_HEIGHT` (line 19). -/
def START_BLOCK_HEIGHT : Nat := 798551

/-- `STOP_BLOCK_HEIGHT` (line 20). -/
def STOP_BLOCK_HEIGHT : Nat := 799251

/-- `range(start, stop + 1)` (line 91): the heights the driver
iterates. -/
def py_range (start stop : Nat) : List Nat := List.range' start (stop + 1 - start)

/-- Whether some input of `vin` references an identifier present in the
block (the condition under which lines 72-80 fire at least once for a
transaction). -/
def vin_in_block (btxids : Finset String) (vin : List (Option String)) : Bool :=
  vin.any (fun txin =>
    match txin with
    | some r => decide (r ∈ btxids)
    | none => false)

/-- The set of in-block identifiers referenced by the inputs `vin`. -/
def vin_refs (btxids : Finset String) : List (Option String) → Finset String
  | [] => ∅
  | none :: rest => vin_refs btxids rest
  | some r :: rest =>
    if r ∈ btxids then insert r (vin_refs btxids rest) else vin_refs btxids rest

/-- The number of transactions of the block having at least one
in-block referencing input, each counted once. -/
def children_count (btxids : Finset String) (block_txs : List Tx) : Nat :=
  block_txs.countP (fun tx => vin_in_block btxids tx.vin)

/-- The set of in-block identifiers referenced by some transaction of
the block. -/
def parents_set (btxids : Finset String) : List Tx → Finset String
  | [] => ∅
  | tx :: rest => vin_refs btxids tx.vin ∪ parents_set btxids rest

/-- The set of identifiers of the block's transactions having no
in-block referencing input (the fee-estimation candidates). -/
def candidates_set (btxids : Finset String) : List Tx → Finset String
  | [] => ∅
  | tx :: rest =>
    if vin_in_block btxids tx.vin then candidates_set btxids rest
    else insert tx.txid (candidates_set btxids rest)

/-- Whether a block starts with a coinbase transaction: it is non-empty
and no input of its first transaction carries a referenced
identifier. -/
def coinbase_first : List Tx → Bool
  | [] => false
  | cb :: _ => cb.vin.all (fun txin => txin == none)

/-- The names bound at module level in `count_cpfps.py`: the imports
(lines 11-16) and every top-level assignment and loop variable. -/
def module_level_names : List String :=
  ["concurrent", "os", "random", "sys", "time", "AuthServiceProxy",
   "START_BLOCK_HEIGHT", "STOP_BLOCK_HEIGHT", "cookie_path", "fd", "authpair",
   "endpoint", "total_transactions", "total_child_count", "total_parent_count",
   "min_child_percentage", "max_child_percentage", "min_parent_percentage",
   "max_parent_percentage", "candidate_count", "candidate_parent_count",
   "get_block_data", "futures", "executor", "height", "i", "f", "perc_done",
   "res", "txs_count", "child_count", "parent_count", "candidates_count",
   "candidates_parent_count", "child_percentage", "parent_percentage"]

/-- The local names of `get_block_data` that are bound when the
`except` branch (lines 47-50) runs: the two parameters and the caught
exception. The assignment `rpc = AuthServiceProxy(endpoint)` (line 46)
raised, so `rpc` is unbound there. -/
def retry_branch_bound_locals : List String := ["endpoint", "height", "e"]

/-- The names the retry path (lines 49-50) reads:
`time.sleep(random.uniform(...))` then `return get_block_txs(rpc, height)`. -/
def retry_branch_referenced_names : List String :=
  ["time", "random", "get_block_txs", "rpc", "height"]

/-- Whether the retry path reads a name that is bound neither at module
level nor locally, in which case reaching it raises a `NameError` or
`UnboundLocalError` instead of performing the retry. -/
def retry_branch_raises : Bool :=
  retry_branch_referenced_names.any (fun n =>
    !(module_level_names.contains n) && !(retry_branch_bound_locals.contains n))

/-- A concrete per-block result sequence used to exercise the driver:
three non-empty blocks and one empty one. -/
def sample_results : List (Option BlockStats) :=
  [some ⟨4, 2, 2, 2, 1⟩, none, some ⟨2, 0, 0, 2, 0⟩, some ⟨5, 1, 1, 4, 1⟩]

instance : DecidableEq (Except RunError Report) :=
  fun a b =>
    match a, b with
    | .ok x, .ok y => if h : x = y then isTrue (by rw [h]) else isFalse (by simp [h])
    | .error x, .error y => if h : x = y then isTrue (by rw [h]) else isFalse (by simp [h])
    | .ok _, .error _ => isFalse (by simp)
    | .error _, .ok _ => isFalse (by simp)

@[simp] lemma vin_in_block_nil (ids : Finset String) : vin_in_block ids [] = false := rfl

@[simp] lemma vin_in_block_cons_none (ids : Finset String) (rest : List (Option String)) :
    vin_in_block ids (none :: rest) = vin_in_block ids rest := rfl

@[simp] lemma vin_in_block_cons_some (ids : Finset String) (r : String)
    (rest : List (Option String)) :
    vin_in_block ids (some r :: rest) = (decide (r ∈ ids) || vin_in_block ids rest) := by
  simp [vin_in_block]

/-- Characterization of the inner loop of `get_block_data` (lines 68-80)
from any starting state: the child flag becomes true exactly when some
input references an in-block identifier, the child counter grows by one
exactly when that happens with the flag initially clear, and the parent
set grows by the referenced in-block identifiers. -/
lemma foldl_scan_vin (ids : Finset String) (vin : List (Option String)) :
    ∀ (b : Bool) (c : Nat) (p : Finset String),
    vin.foldl (scan_vin ids) (b, c, p) =
      (b || vin_in_block ids vin,
       c + (if b then 0 else if vin_in_block ids vin then 1 else 0),
       p ∪ vin_refs ids vin) := by
  induction vin with
  | nil => intro b c p; simp [vin_refs]
  | cons txin rest ih =>
    intro b c p
    cases txin with
    | none =>
      simp only [List.foldl_cons, scan_vin]
      rw [ih]
      simp [vin_refs]
    | some r =>
      by_cases hr : r ∈ ids
      · have hins : (if r ∉ p then insert r p else p) = insert r p := by
          by_cases hp : r ∈ p
          · simp [hp, Finset.insert_eq_self.mpr hp]
          · simp [hp]
        cases b with
        | true =>
          simp only [List.foldl_cons, scan_vin, hr, if_pos, hins]
          rw [ih]
          simp [vin_refs, hr, Finset.insert_union, Finset.union_insert]
        | false =>
          simp only [List.foldl_cons, scan_vin, hr, if_pos, hins]
          rw [ih]
          simp [vin_refs, hr, Finset.insert_union, Finset.union_insert]
      · simp only [List.foldl_cons, scan_vin, hr, if_neg]
        rw [ih]
        simp [vin_refs, hr]

/-- Characterization of one iteration of the outer loop
(lines 64-82). -/
lemma process_tx_eq (ids : Finset String) (st : ScanState) (tx : Tx) :
    process_tx ids st tx =
      ⟨st.child_count + (if vin_in_block ids tx.vin then 1 else 0),
       st.parent_txids ∪ vin_refs ids tx.vin,
       if vin_in_block ids tx.vin then st.candidates_txids
       else insert tx.txid st.candidates_txids⟩ := by
  unfold process_tx
  rw [foldl_scan_vin]
  simp

/-- Characterization of the whole outer loop of `get_block_data`
(lines 61-82) from any starting state. -/
lemma foldl_process_tx (ids : Finset String) (block_txs : List Tx) :
    ∀ st : ScanState,
    block_txs.foldl (process_tx ids) st =
      ⟨st.child_count + children_count ids block_txs,
       st.parent_txids ∪ parents_set ids block_txs,
       st.candidates_txids ∪ candidates_set ids block_txs⟩ := by
  induction block_txs with
  | nil => intro st; simp [children_count, parents_set, candidates_set]
  | cons tx rest ih =>
    intro st
    simp only [List.foldl_cons, process_tx_eq]
    rw [ih]
    by_cases h : vin_in_block ids tx.vin <;>
      simp [children_count, List.countP_cons, parents_set, candidates_set, h,
        Finset.union_assoc, Finset.insert_union, Finset.union_insert]
    all_goals omega

/-- `get_block_data` on a block whose identifier set is not a
singleton, in terms of the specification-level sets. -/
lemma get_block_data_eq (block_txs : List Tx)
    (h : (block_txids block_txs).card ≠ 1) :
    get_block_data block_txs =
      some ⟨(block_txids block_txs).card,
        children_count (block_txids block_txs) block_txs,
        (parents_set (block_txids block_txs) block_txs).card,
        (candidates_set (block_txids block_txs) block_txs).card,
        (parents_set (block_txids block_txs) block_txs ∩
          candidates_set (block_txids block_txs) block_txs).card⟩ := by
  unfold get_block_data
  rw [if_neg h, foldl_process_tx]
  simp

/-- `get_block_data` skips a block whose identifier set is a
singleton (lines 57-59). -/
lemma get_block_data_none (block_txs : List Tx)
    (h : (block_txids block_txs).card = 1) :
    get_block_data block_txs = none := by
  unfold get_block_data
  rw [if_pos h]

/-- Inversion: a returned result determines the counts. -/
lemma get_block_data_some (block_txs : List Tx) (s : BlockStats)
    (h : get_block_data block_txs = some s) :
    (block_txids block_txs).card ≠ 1 ∧
      s = ⟨(block_txids block_txs).card,
        children_count (block_txids block_txs) block_txs,
        (parents_set (block_txids block_txs) block_txs).card,
        (candidates_set (block_txids block_txs) block_txs).card,
        (parents_set (block_txids block_txs) block_txs ∩
          candidates_set (block_txids block_txs) block_txs).card⟩ := by
  by_cases hc : (block_txids block_txs).card = 1
  · rw [get_block_data_none block_txs hc] at h
    exact absurd h (by simp)
  · rw [get_block_data_eq block_txs hc] at h
    exact ⟨hc, by injection h with h2; exact h2.symm⟩

/-- Membership in the referenced-identifier set of an input list. -/
lemma mem_vin_refs (ids : Finset String) (vin : List (Option String)) (r : String) :
    r ∈ vin_refs ids vin ↔ some r ∈ vin ∧ r ∈ ids := by
  induction vin with
  | nil => simp [vin_refs]
  | cons txin rest ih =>
    cases txin with
    | none => simp [vin_refs, ih]
    | some x =>
      by_cases hx : x ∈ ids
      · simp only [vin_refs, hx, if_pos, Finset.mem_insert, ih, List.mem_cons]
        constructor
        · rintro (rfl | ⟨h1, h2⟩)
          · exact ⟨Or.inl rfl, hx⟩
          · exact ⟨Or.inr h1, h2⟩
        · rintro ⟨h1 | h1, h2⟩
          · exact Or.inl (by injection h1)
          · exact Or.inr ⟨h1, h2⟩
      · have hv : vin_refs ids (some x :: rest) = vin_refs ids rest := by
          simp [vin_refs, hx]
        rw [hv, ih]
        simp only [List.mem_cons]
        constructor
        · rintro ⟨h1, h2⟩; exact ⟨Or.inr h1, h2⟩
        · rintro ⟨h1 | h1, h2⟩
          · injection h1 with h1; exact absurd (by rwa [h1] at h2) hx
          · exact ⟨h1, h2⟩

/-- A transaction is marked a child exactly when one of its inputs
references an identifier present in the block. -/
lemma vin_in_block_iff (ids : Finset String) (vin : List (Option String)) :
    vin_in_block ids vin = true ↔ ∃ r, some r ∈ vin ∧ r ∈ ids := by
  unfold vin_in_block
  rw [List.any_eq_true]
  constructor
  · rintro ⟨txin, htxin, hp⟩
    cases txin with
    | none => exact absurd hp (by simp)
    | some r => exact ⟨r, htxin, by simpa using hp⟩
  · rintro ⟨r, hmem, hr⟩
    exact ⟨some r, hmem, by simpa using hr⟩

/-- Membership in the parent set: exactly the in-block identifiers
referenced by some transaction of the block (deduplicated). -/
lemma mem_parents_set (ids : Finset String) (block_txs : List Tx) (r : String) :
    r ∈ parents_set ids block_txs ↔
      ∃ tx ∈ block_txs, some r ∈ tx.vin ∧ r ∈ ids := by
  induction block_txs with
  | nil => simp [parents_set]
  | cons tx rest ih =>
    simp only [parents_set, Finset.mem_union, mem_vin_refs, ih, List.mem_cons]
    constructor
    · rintro (⟨h1, h2⟩ | ⟨t, ht, h1, h2⟩)
      · exact ⟨tx, Or.inl rfl, h1, h2⟩
      · exact ⟨t, Or.inr ht, h1, h2⟩
    · rintro ⟨t, rfl | ht, h1, h2⟩
      · exact Or.inl ⟨h1, h2⟩
      · exact Or.inr ⟨t, ht, h1, h2⟩

/-- Membership in the candidate set: exactly the identifiers of the
transactions never marked child. -/
lemma mem_candidates_set (ids : Finset String) (block_txs : List Tx) (y : String) :
    y ∈ candidates_set ids block_txs ↔
      ∃ tx ∈ block_txs, vin_in_block ids tx.vin = false ∧ tx.txid = y := by
  induction block_txs with
  | nil => simp [candidates_set]
  | cons tx rest ih =>
    by_cases h : vin_in_block ids tx.vin
    · simp only [candidates_set, h, if_pos, ih, List.mem_cons]
      constructor
      · rintro ⟨t, ht, h1, h2⟩; exact ⟨t, Or.inr ht, h1, h2⟩
      · rintro ⟨t, rfl | ht, h1, h2⟩
        · exact absurd h (by simp [h1])
        · exact ⟨t, ht, h1, h2⟩
    · rw [Bool.not_eq_true] at h
      have hc : candidates_set ids (tx :: rest) =
          insert tx.txid (candidates_set ids rest) := by
        simp [candidates_set, h]
      rw [hc]
      simp only [Finset.mem_insert, ih, List.mem_cons]
      constructor
      · rintro (rfl | ⟨t, ht, h1, h2⟩)
        · exact ⟨tx, Or.inl rfl, h, rfl⟩
        · exact ⟨t, Or.inr ht, h1, h2⟩
      · rintro ⟨t, rfl | ht, h1, h2⟩
        · exact Or.inl h2.symm
        · exact Or.inr ⟨t, ht, h1, h2⟩

/-- The candidate set is the identifier set of the non-child
transactions, in list form. -/
lemma candidates_set_eq_filter (ids : Finset String) (block_txs : List Tx) :
    candidates_set ids block_txs =
      ((block_txs.filter (fun tx => !(vin_in_block ids tx.vin))).map Tx.txid).toFinset := by
  induction block_txs with
  | nil => simp [candidates_set]
  | cons tx rest ih =>
    by_cases h : vin_in_block ids tx.vin <;>
      simp [candidates_set, List.filter_cons, h, ih]

/-- The accumulator never decreases under `updateMax`. -/
lemma le_updateMax_left (a x : ℚ) : a ≤ updateMax a x := by
  unfold updateMax; split <;> linarith

/-- The new percentage never exceeds the updated maximum. -/
lemma le_updateMax_right (a x : ℚ) : x ≤ updateMax a x := by
  unfold updateMax; split <;> linarith

/-- `updateMax` returns one of its two arguments. -/
lemma updateMax_eq_or (a x : ℚ) : updateMax a x = a ∨ updateMax a x = x := by
  unfold updateMax; split
  · exact Or.inr rfl
  · exact Or.inl rfl

/-- The starting value bounds the fold of `updateMax` from below. -/
lemma le_foldl_updateMax (l : List ℚ) : ∀ a : ℚ, a ≤ l.foldl updateMax a := by
  induction l with
  | nil => intro a; exact le_refl a
  | cons x rest ih =>
    intro a
    exact (le_updateMax_left a x).trans (by simpa using ih (updateMax a x))

/-- Every listed percentage is below the fold of `updateMax`. -/
lemma mem_le_foldl_updateMax (l : List ℚ) :
    ∀ a : ℚ, ∀ x ∈ l, x ≤ l.foldl updateMax a := by
  induction l with
  | nil => intro a x hx; exact absurd hx (by simp)
  | cons y rest ih =>
    intro a x hx
    rcases List.mem_cons.mp hx with rfl | hx
    · exact (le_updateMax_right a x).trans (by simpa using le_foldl_updateMax rest (updateMax a x))
    · simpa using ih (updateMax a y) x hx

/-- The fold of `updateMax` is the starting value or a listed value. -/
lemma foldl_updateMax_mem (l : List ℚ) :
    ∀ a : ℚ, l.foldl updateMax a = a ∨ l.foldl updateMax a ∈ l := by
  induction l with
  | nil => intro a; exact Or.inl rfl
  | cons x rest ih =>
    intro a
    rcases ih (updateMax a x) with h | h
    · rcases updateMax_eq_or a x with h2 | h2
      · exact Or.inl (by simpa [h2] using h)
      · exact Or.inr (by simp only [List.foldl_cons]; rw [h, h2]; exact List.mem_cons_self x rest)
    · exact Or.inr (List.mem_cons_of_mem x (by simpa using h))

/-- The fold of `updateMin` from a set minimum: it stays set, equals
the start or a listed value, and bounds the start and every listed
value from below. -/
lemma foldl_updateMin_some (l : List ℚ) :
    ∀ a : ℚ, ∃ m, l.foldl updateMin (some a) = some m ∧ (m = a ∨ m ∈ l) ∧ m ≤ a ∧
      ∀ x ∈ l, m ≤ x := by
  induction l with
  | nil => intro a; exact ⟨a, rfl, Or.inl rfl, le_refl a, by simp⟩
  | cons x rest ih =>
    intro a
    by_cases hx : x < a
    · have hu : updateMin (some a) x = some x := by
        show (if x < a then some x else some a) = some x
        rw [if_pos hx]
      obtain ⟨m, h1, h2, h3, h4⟩ := ih x
      refine ⟨m, by rw [List.foldl_cons, hu]; exact h1, ?_, h3.trans (le_of_lt hx), ?_⟩
      · rcases h2 with rfl | h2
        · exact Or.inr (List.mem_cons_self m rest)
        · exact Or.inr (List.mem_cons_of_mem x h2)
      · intro y hy
        rcases List.mem_cons.mp hy with rfl | hy
        · exact h3
        · exact h4 y hy
    · have hax : a ≤ x := not_lt.mp hx
      have hu : updateMin (some a) x = some a := by
        show (if x < a then some x else some a) = some a
        rw [if_neg hx]
      obtain ⟨m, h1, h2, h3, h4⟩ := ih a
      refine ⟨m, by rw [List.foldl_cons, hu]; exact h1, ?_, h3, ?_⟩
      · rcases h2 with rfl | h2
        · exact Or.inl rfl
        · exact Or.inr (List.mem_cons_of_mem x h2)
      · intro y hy
        rcases List.mem_cons.mp hy with rfl | hy
        · exact h3.trans hax
        · exact h4 y hy

/-- The fold of `updateMin` from `None` over a non-empty list is the
exact minimum: attained and a lower bound. -/
lemma foldl_updateMin_none (l : List ℚ) (hne : l ≠ []) :
    ∃ m, l.foldl updateMin none = some m ∧ m ∈ l ∧ ∀ x ∈ l, m ≤ x := by
  match l with
  | [] => exact absurd rfl hne
  | x :: rest =>
    have hu : updateMin none x = some x := rfl
    obtain ⟨m, h1, h2, h3, h4⟩ := foldl_updateMin_some rest x
    refine ⟨m, by rw [List.foldl_cons, hu]; exact h1, ?_, ?_⟩
    · rcases h2 with rfl | h2
      · exact List.mem_cons_self m rest
      · exact List.mem_cons_of_mem x h2
    · intro y hy
      rcases List.mem_cons.mp hy with rfl | hy
      · exact h3
      · exact h4 y hy

/-- Characterization of the driver's result loop (lines 99-122) from
any starting accumulator: the totals take the sums and the bounds take
the folds of `updateMin`/`updateMax` over the non-`None` results, in
order. -/
lemma foldl_updateAggregate (results : List (Option BlockStats)) :
    ∀ agg : Aggregate,
    results.foldl updateAggregate agg =
      { total_transactions :=
          agg.total_transactions + ((results.filterMap id).map BlockStats.txs_count).sum
        total_child_count :=
          agg.total_child_count + ((results.filterMap id).map BlockStats.child_count).sum
        total_parent_count :=
          agg.total_parent_count + ((results.filterMap id).map BlockStats.parent_count).sum
        min_child_percentage :=
          ((results.filterMap id).map child_percentage).foldl updateMin
            agg.min_child_percentage
        max_child_percentage :=
          ((results.filterMap id).map child_percentage).foldl updateMax
            agg.max_child_percentage
        min_parent_percentage :=
          ((results.filterMap id).map parent_percentage).foldl updateMin
            agg.min_parent_percentage
        max_parent_percentage :=
          ((results.filterMap id).map parent_percentage).foldl updateMax
            agg.max_parent_percentage
        candidate_count :=
          agg.candidate_count + ((results.filterMap id).map BlockStats.candidates_count).sum
        candidate_parent_count :=
          agg.candidate_parent_count +
            ((results.filterMap id).map BlockStats.candidates_parent_count).sum } := by
  induction results with
  | nil => intro agg; simp
  | cons r rest ih =>
    intro agg
    cases r with
    | none =>
      simp only [List.foldl_cons]
      rw [show updateAggregate agg none = agg from rfl, ih]
      simp
    | some s =>
      simp only [List.foldl_cons]
      rw [ih]
      simp [updateAggregate, add_assoc]

/-- `candidate_count` never decreases across one driver iteration. -/
lemma candidate_count_le_updateAggregate (agg : Aggregate) (r : Option BlockStats) :
    agg.candidate_count ≤ (updateAggregate agg r).candidate_count := by
  cases r with
  | none => exact le_refl _
  | some s => exact Nat.le_add_right _ _

/-- `candidate_count` never decreases across the driver loop. -/
lemma candidate_count_le_foldl (results : List (Option BlockStats)) :
    ∀ agg : Aggregate,
    agg.candidate_count ≤ (results.foldl updateAggregate agg).candidate_count := by
  induction results with
  | nil => intro agg; exact le_refl _
  | cons r rest ih =>
    intro agg
    exact (candidate_count_le_updateAggregate agg r).trans
      (by simpa using ih (updateAggregate agg r))

/-- A run over blocks that all come back empty leaves the accumulator
at its initial value. -/
lemma fold_blocks_all_none (blocks : List (List Tx))
    (h : ∀ b ∈ blocks, get_block_data b = none) :
    fold_blocks blocks = initAggregate := by
  unfold fold_blocks
  induction blocks with
  | nil => rfl
  | cons b rest ih =>
    simp only [List.map_cons, List.foldl_cons]
    rw [h b (List.mem_cons_self b rest),
      show updateAggregate initAggregate none = initAggregate from rfl]
    exact ih (fun b hb => h b (List.mem_cons_of_mem _ hb))

/-- Per-block child percentages are never negative. -/
lemma child_percentage_nonneg (s : BlockStats) : 0 ≤ child_percentage s := by
  unfold child_percentage; positivity

/-- Per-block parent percentages are never negative. -/
lemma parent_percentage_nonneg (s : BlockStats) : 0 ≤ parent_percentage s := by
  unfold parent_percentage; positivity

/-- A transaction all of whose inputs carry no referenced identifier is
never marked a child. -/
lemma vin_in_block_of_all_none (ids : Finset String) (vin : List (Option String))
    (h : ∀ txin ∈ vin, txin = none) : vin_in_block ids vin = false := by
  rw [Bool.eq_false_iff]
  intro hcontra
  obtain ⟨r, hmem, _⟩ := (vin_in_block_iff ids vin).mp hcontra
  exact absurd (h (some r) hmem) (by simp)

/-- C1: for a block `[coinbase, A, B, C]` where `B` spends an output of
`A` and `C` spends an output of `B`, `get_block_data` reports 4
transactions, 2 children (B and C), 2 parents (A and B), 2 candidates
(coinbase and A) and 1 candidate parent (A). -/
theorem C1_two_deep_chain_scenario :
    get_block_data
      [⟨"coinbase", [none]⟩, ⟨"a", [some "f0"]⟩, ⟨"b", [some "a"]⟩, ⟨"c", [some "b"]⟩]
      = some ⟨4, 2, 2, 2, 1⟩ := by decide

/-- C4: a block containing exactly one transaction is reported as empty
(`None`), and the driver loop leaves every accumulator field unchanged
on such a result, so the block contributes to no total or bound. -/
theorem C4_singleton_block_skipped (tx : Tx) (agg : Aggregate) :
    get_block_data [tx] = none ∧ updateAggregate agg (get_block_data [tx]) = agg := by
  have h : get_block_data [tx] = none := by
    apply get_block_data_none
    simp [block_txids]
  exact ⟨h, by rw [h]; rfl⟩

/-- C5 counterexample: when the processed range contains only empty
blocks, the final report faults with a raw `ZeroDivisionError` (from
the average computed over `total_transactions = 0` on line 125), not
with the `AssertionError` of line 129 — so the assertion is not the
guard that fires first. -/
theorem C5_counterexample_division_before_assert :
    final_report (fold_blocks [[⟨"coinbase", [none]⟩]]) =
        Except.error RunError.zeroDivisionError ∧
      final_report (fold_blocks [[⟨"coinbase", [none]⟩]]) ≠
        Except.error RunError.assertionError := by
  refine ⟨by decide, by decide⟩

/-- C5 amended: when the processed range contains only empty blocks,
the program faults with a raw division by zero while computing the
average percentages (line 125), before the assertion of line 129 is
ever reached; the assertion only guards the min-percentage printing. -/
theorem C5_amended_zero_division_on_empty_range (blocks : List (List Tx))
    (h : ∀ b ∈ blocks, get_block_data b = none) :
    final_report (fold_blocks blocks) = Except.error RunError.zeroDivisionError := by
  rw [fold_blocks_all_none blocks h]
  decide

/-- Witness for the amended C5 at a concrete one-block range. -/
theorem C5_amended_witness :
    (∀ b ∈ [[(⟨"coinbase", [none]⟩ : Tx)]], get_block_data b = none) ∧
      final_report (fold_blocks [[(⟨"coinbase", [none]⟩ : Tx)]]) =
        Except.error RunError.zeroDivisionError :=
  ⟨by decide, C5_amended_zero_division_on_empty_range _ (by decide)⟩

/-- C6: the retry path of lines 47-50 reads names bound nowhere in the
script — the exception class used to catch the 503 condition, the
function it recurses into, and the client handle whose construction
just raised — so if reached it raises instead of retrying. -/
theorem C6_retry_path_reads_undefined_names :
    retry_branch_raises = true ∧
      "get_block_txs" ∉ module_level_names ∧
      "get_block_txs" ∉ retry_branch_bound_locals ∧
      "rpc" ∉ module_level_names ∧
      "rpc" ∉ retry_branch_bound_locals ∧
      "JSONRPCException" ∉ module_level_names ∧
      "JSONRPCException" ∉ retry_branch_bound_locals := by decide

/-- C3: when a block's transaction identifiers are distinct, every
transaction is counted exactly once as either a child or a
fee-estimation candidate: `candidates_count + child_count =
txs_count`. -/
theorem C3_candidates_plus_children (block_txs : List Tx)
    (hnd : (block_txs.map Tx.txid).Nodup) (s : BlockStats)
    (hs : get_block_data block_txs = some s) :
    s.candidates_count + s.child_count = s.txs_count := by
  obtain ⟨hc, rfl⟩ := get_block_data_some block_txs s hs
  have hcard : (block_txids block_txs).card = block_txs.length := by
    unfold block_txids
    rw [List.toFinset_card_of_nodup hnd, List.length_map]
  have hcand : (candidates_set (block_txids block_txs) block_txs).card =
      block_txs.countP (fun tx => !(vin_in_block (block_txids block_txs) tx.vin)) := by
    rw [candidates_set_eq_filter]
    rw [List.toFinset_card_of_nodup
      (hnd.sublist ((List.filter_sublist block_txs).map Tx.txid))]
    rw [List.length_map, ← List.countP_eq_length_filter]
  have hsplit := List.length_eq_countP_add_countP
    (fun tx => vin_in_block (block_txids block_txs) tx.vin) block_txs
  have hcompl : block_txs.countP
        (fun tx => !(vin_in_block (block_txids block_txs) tx.vin)) =
      block_txs.countP
        (fun tx => decide ¬(vin_in_block (block_txids block_txs) tx.vin = true)) := by
    apply List.countP_congr
    intro t _
    cases h : vin_in_block (block_txids block_txs) t.vin <;> simp [h]
  simp only [BlockStats.mk.injEq]
  show (candidates_set (block_txids block_txs) block_txs).card +
      children_count (block_txids block_txs) block_txs =
    (block_txids block_txs).card
  unfold children_count
  omega

/-- Witness for C3 at a concrete block with one chain link. -/
theorem C3_witness :
    (([⟨"coinbase", [none]⟩, ⟨"a", [some "f0"]⟩, ⟨"b", [some "a"]⟩] : List Tx).map
        Tx.txid).Nodup ∧
      get_block_data [⟨"coinbase", [none]⟩, ⟨"a", [some "f0"]⟩, ⟨"b", [some "a"]⟩] =
        some ⟨3, 1, 1, 2, 1⟩ ∧
      (BlockStats.mk 3 1 1 2 1).candidates_count + (BlockStats.mk 3 1 1 2 1).child_count =
        (BlockStats.mk 3 1 1 2 1).txs_count :=
  ⟨by decide, by decide,
    C3_candidates_plus_children
      [⟨"coinbase", [none]⟩, ⟨"a", [some "f0"]⟩, ⟨"b", [some "a"]⟩]
      (by decide) ⟨3, 1, 1, 2, 1⟩ (by decide)⟩

/-- C7: a transaction is marked a child at most once no matter how many
in-block parents it has (`child_count` counts each transaction zero or
one time), and the parent set has set semantics (an identifier
referenced by several children appears once). -/
theorem C7_child_and_parent_counted_once (block_txs : List Tx) (s : BlockStats)
    (hs : get_block_data block_txs = some s) :
    s.child_count = children_count (block_txids block_txs) block_txs ∧
      s.child_count ≤ block_txs.length ∧
      s.parent_count = (parents_set (block_txids block_txs) block_txs).card ∧
      (∀ r : String, r ∈ parents_set (block_txids block_txs) block_txs ↔
        r ∈ block_txids block_txs ∧ ∃ tx ∈ block_txs, some r ∈ tx.vin) := by
  obtain ⟨hc, rfl⟩ := get_block_data_some block_txs s hs
  refine ⟨rfl, ?_, rfl, ?_⟩
  · exact List.countP_le_length _
  · intro r
    rw [mem_parents_set]
    constructor
    · rintro ⟨tx, htx, h1, h2⟩; exact ⟨h2, tx, htx, h1⟩
    · rintro ⟨h2, tx, htx, h1⟩; exact ⟨tx, htx, h1, h2⟩

/-- Witness for C7: a transaction with two inputs both spending outputs
of the same in-block parent is counted as one child, and the parent is
counted once. -/
theorem C7_witness :
    get_block_data
        [⟨"coinbase", [none]⟩, ⟨"p", [some "f1"]⟩, ⟨"c", [some "p", some "p"]⟩]
      = some ⟨3, 1, 1, 2, 1⟩ ∧
    (BlockStats.mk 3 1 1 2 1).child_count =
      children_count
        (block_txids [⟨"coinbase", [none]⟩, ⟨"p", [some "f1"]⟩, ⟨"c", [some "p", some "p"]⟩])
        [⟨"coinbase", [none]⟩, ⟨"p", [some "f1"]⟩, ⟨"c", [some "p", some "p"]⟩] ∧
    (BlockStats.mk 3 1 1 2 1).child_count ≤
      ([⟨"coinbase", [none]⟩, ⟨"p", [some "f1"]⟩, ⟨"c", [some "p", some "p"]⟩] : List Tx).length ∧
    (BlockStats.mk 3 1 1 2 1).parent_count =
      (parents_set
        (block_txids [⟨"coinbase", [none]⟩, ⟨"p", [some "f1"]⟩, ⟨"c", [some "p", some "p"]⟩])
        [⟨"coinbase", [none]⟩, ⟨"p", [some "f1"]⟩, ⟨"c", [some "p", some "p"]⟩]).card ∧
    (∀ r : String,
      r ∈ parents_set
          (block_txids [⟨"coinbase", [none]⟩, ⟨"p", [some "f1"]⟩, ⟨"c", [some "p", some "p"]⟩])
          [⟨"coinbase", [none]⟩, ⟨"p", [some "f1"]⟩, ⟨"c", [some "p", some "p"]⟩] ↔
        r ∈ block_txids [⟨"coinbase", [none]⟩, ⟨"p", [some "f1"]⟩, ⟨"c", [some "p", some "p"]⟩] ∧
          ∃ tx ∈ ([⟨"coinbase", [none]⟩, ⟨"p", [some "f1"]⟩, ⟨"c", [some "p", some "p"]⟩] : List Tx),
            some r ∈ tx.vin) := by
  refine ⟨by decide, ?_⟩
  have h := C7_child_and_parent_counted_once
    [⟨"coinbase", [none]⟩, ⟨"p", [some "f1"]⟩, ⟨"c", [some "p", some "p"]⟩]
    ⟨3, 1, 1, 2, 1⟩ (by decide)
  exact ⟨h.1, h.2.1, h.2.2.1, h.2.2.2⟩

/-- C9: `get_block_data` is invariant under permutation of the block's
transaction list — every count depends only on membership in the
block-wide identifier set. -/
theorem C9_permutation_invariant (block_txs block_txs' : List Tx)
    (hp : block_txs.Perm block_txs') :
    get_block_data block_txs = get_block_data block_txs' := by
  have hids : block_txids block_txs = block_txids block_txs' := by
    unfold block_txids
    exact List.toFinset_eq_of_perm _ _ (hp.map Tx.txid)
  have hch : children_count (block_txids block_txs) block_txs =
      children_count (block_txids block_txs') block_txs' := by
    unfold children_count
    rw [hids]
    exact hp.countP_eq _
  have hpar : parents_set (block_txids block_txs) block_txs =
      parents_set (block_txids block_txs') block_txs' := by
    ext r
    rw [mem_parents_set, mem_parents_set, hids]
    constructor
    · rintro ⟨tx, htx, h1, h2⟩; exact ⟨tx, hp.mem_iff.mp htx, h1, h2⟩
    · rintro ⟨tx, htx, h1, h2⟩; exact ⟨tx, hp.mem_iff.mpr htx, h1, h2⟩
  have hcand : candidates_set (block_txids block_txs) block_txs =
      candidates_set (block_txids block_txs') block_txs' := by
    ext y
    rw [mem_candidates_set, mem_candidates_set, hids]
    constructor
    · rintro ⟨tx, htx, h1, h2⟩; exact ⟨tx, hp.mem_iff.mp htx, h1, h2⟩
    · rintro ⟨tx, htx, h1, h2⟩; exact ⟨tx, hp.mem_iff.mpr htx, h1, h2⟩
  by_cases hc : (block_txids block_txs).card = 1
  · rw [get_block_data_none _ hc, get_block_data_none _ (by rwa [hids] at hc)]
  · rw [get_block_data_eq _ hc, get_block_data_eq _ (by rwa [hids] at hc),
      hch, hpar, hcand, hids]

/-- Witness for C9 at a concrete block and reordering. -/
theorem C9_witness :
    ([⟨"coinbase", [none]⟩, ⟨"a", [some "f0"]⟩, ⟨"b", [some "a"]⟩] : List Tx).Perm
        [⟨"b", [some "a"]⟩, ⟨"coinbase", [none]⟩, ⟨"a", [some "f0"]⟩] ∧
      get_block_data [⟨"coinbase", [none]⟩, ⟨"a", [some "f0"]⟩, ⟨"b", [some "a"]⟩] =
        get_block_data [⟨"b", [some "a"]⟩, ⟨"coinbase", [none]⟩, ⟨"a", [some "f0"]⟩] :=
  ⟨by decide, C9_permutation_invariant _ _ (by decide)⟩

/-- Over a non-empty list of non-negative percentages, the fold of
`updateMax` from the initial `0` is the exact maximum: attained and an
upper bound. -/
lemma foldl_updateMax_zero_mem (l : List ℚ) (hne : l ≠ []) (hpos : ∀ x ∈ l, 0 ≤ x) :
    l.foldl updateMax 0 ∈ l ∧ ∀ x ∈ l, x ≤ l.foldl updateMax 0 := by
  constructor
  · rcases foldl_updateMax_mem l 0 with h | h
    · obtain ⟨x, hx⟩ := List.exists_mem_of_ne_nil l hne
      have h1 : x ≤ l.foldl updateMax 0 := mem_le_foldl_updateMax l 0 x hx
      have h2 : x = 0 := le_antisymm (h ▸ h1) (hpos x hx)
      rw [h]
      exact h2 ▸ hx
    · exact h
  · exact mem_le_foldl_updateMax l 0

/-- A coinbase-led block that is not skipped always has at least one
fee-estimation candidate: its coinbase. -/
lemma coinbase_is_candidate (b : List Tx) (hcb : coinbase_first b = true)
    (s : BlockStats) (hs : get_block_data b = some s) : 1 ≤ s.candidates_count := by
  obtain ⟨hc, rfl⟩ := get_block_data_some b s hs
  cases b with
  | nil => simp [coinbase_first] at hcb
  | cons cb rest =>
    have hall : ∀ txin ∈ cb.vin, txin = none := by
      intro txin htxin
      exact eq_of_beq (List.all_eq_true.mp hcb txin htxin)
    have hninb : vin_in_block (block_txids (cb :: rest)) cb.vin = false :=
      vin_in_block_of_all_none _ _ hall
    have hmem : cb.txid ∈ candidates_set (block_txids (cb :: rest)) (cb :: rest) :=
      (mem_candidates_set _ _ _).mpr ⟨cb, List.mem_cons_self _ _, hninb, rfl⟩
    have hpos := Finset.card_pos.mpr
      (⟨cb.txid, hmem⟩ : (candidates_set (block_txids (cb :: rest)) (cb :: rest)).Nonempty)
    show 1 ≤ (candidates_set (block_txids (cb :: rest)) (cb :: rest)).card
    omega

/-- C2: for a well-formed block — distinct identifiers, a coinbase
first transaction whose inputs carry no referenced identifier, and
in-block references pointing only to earlier transactions — both
`child_count` and `parent_count` are at most `txs_count - 1`; the
coinbase contributes nothing to the child count; and the algorithm does
not special-case the coinbase as a parent: whenever some transaction's
input references the coinbase identifier, that identifier is in the
parent set. -/
theorem C2_bounds_and_coinbase_parent (cb : Tx) (rest : List Tx)
    (hnd : ((cb :: rest).map Tx.txid).Nodup)
    (hcb : ∀ txin ∈ cb.vin, txin = none)
    (htopo : ∀ i : Fin (cb :: rest).length,
      ∀ r ∈ ((cb :: rest).get i).vin.filterMap id,
        r ∈ block_txids (cb :: rest) →
          ∃ j : Fin (cb :: rest).length,
            (j : Nat) < (i : Nat) ∧ ((cb :: rest).get j).txid = r)
    (s : BlockStats) (hs : get_block_data (cb :: rest) = some s) :
    s.child_count ≤ s.txs_count - 1 ∧
      s.parent_count ≤ s.txs_count - 1 ∧
      children_count (block_txids (cb :: rest)) (cb :: rest) =
        children_count (block_txids (cb :: rest)) rest ∧
      ∀ tx ∈ cb :: rest, some cb.txid ∈ tx.vin →
        cb.txid ∈ parents_set (block_txids (cb :: rest)) (cb :: rest) := by
  obtain ⟨hc1, rfl⟩ := get_block_data_some _ s hs
  have hcard : (block_txids (cb :: rest)).card = rest.length + 1 := by
    unfold block_txids
    rw [List.toFinset_card_of_nodup hnd, List.length_map, List.length_cons]
  have hcbfalse : vin_in_block (block_txids (cb :: rest)) cb.vin = false :=
    vin_in_block_of_all_none _ _ hcb
  have hchildren : children_count (block_txids (cb :: rest)) (cb :: rest) =
      children_count (block_txids (cb :: rest)) rest := by
    unfold children_count
    rw [List.countP_cons]
    simp [hcbfalse]
  refine ⟨?_, ?_, hchildren, ?_⟩
  · show children_count (block_txids (cb :: rest)) (cb :: rest) ≤
      (block_txids (cb :: rest)).card - 1
    rw [hchildren, hcard]
    have := List.countP_le_length
      (fun tx => vin_in_block (block_txids (cb :: rest)) tx.vin) (l := rest)
    unfold children_count
    omega
  · show (parents_set (block_txids (cb :: rest)) (cb :: rest)).card ≤
      (block_txids (cb :: rest)).card - 1
    have hsub : parents_set (block_txids (cb :: rest)) (cb :: rest) ⊆
        (((cb :: rest).map Tx.txid).take rest.length).toFinset := by
      intro r hr
      rw [mem_parents_set] at hr
      obtain ⟨tx, htx, h1, h2⟩ := hr
      obtain ⟨i, hi⟩ := List.mem_iff_get.mp htx
      have h1' : r ∈ ((cb :: rest).get i).vin.filterMap id := by
        rw [hi]
        exact List.mem_filterMap.mpr ⟨some r, h1, rfl⟩
      obtain ⟨j, hji, hj⟩ := htopo i r h1' h2
      have hjlt : (j : Nat) < rest.length := by
        have hi2 := i.isLt
        simp only [List.length_cons] at hi2
        omega
      rw [List.mem_toFinset]
      apply List.mem_take_iff_getElem.mpr
      refine ⟨(j : Nat), ?_, ?_⟩
      · simp only [List.length_map, List.length_cons]
        omega
      · rw [List.getElem_map]
        rw [List.get_eq_getElem] at hj
        exact hj
    have h1 := Finset.card_le_card hsub
    have h2 := List.toFinset_card_le (((cb :: rest).map Tx.txid).take rest.length)
    have h3 : ((((cb :: rest).map Tx.txid)).take rest.length).length ≤ rest.length := by
      simp [List.length_take]
    omega
  · intro tx htx href
    rw [mem_parents_set]
    refine ⟨tx, htx, href, ?_⟩
    unfold block_txids
    rw [List.mem_toFinset]
    exact List.mem_map.mpr ⟨cb, List.mem_cons_self _ _, rfl⟩

/-- Witness for C2: a block `[coinbase, A]` where `A` spends the
coinbase output — the bounds hold and the coinbase identifier is
counted as a parent. -/
theorem C2_witness :
    get_block_data [⟨"coinbase", [none]⟩, ⟨"a", [some "coinbase"]⟩] =
        some ⟨2, 1, 1, 1, 1⟩ ∧
      (BlockStats.mk 2 1 1 1 1).child_count ≤ (BlockStats.mk 2 1 1 1 1).txs_count - 1 ∧
      (BlockStats.mk 2 1 1 1 1).parent_count ≤ (BlockStats.mk 2 1 1 1 1).txs_count - 1 ∧
      children_count (block_txids [⟨"coinbase", [none]⟩, ⟨"a", [some "coinbase"]⟩])
          [⟨"coinbase", [none]⟩, ⟨"a", [some "coinbase"]⟩] =
        children_count (block_txids [⟨"coinbase", [none]⟩, ⟨"a", [some "coinbase"]⟩])
          [⟨"a", [some "coinbase"]⟩] ∧
      ∀ tx ∈ ([⟨"coinbase", [none]⟩, ⟨"a", [some "coinbase"]⟩] : List Tx),
        some (Tx.mk "coinbase" [none]).txid ∈ tx.vin →
          (Tx.mk "coinbase" [none]).txid ∈
            parents_set (block_txids [⟨"coinbase", [none]⟩, ⟨"a", [some "coinbase"]⟩])
              [⟨"coinbase", [none]⟩, ⟨"a", [some "coinbase"]⟩] := by
  refine ⟨by decide, ?_⟩
  have h := C2_bounds_and_coinbase_parent ⟨"coinbase", [none]⟩ [⟨"a", [some "coinbase"]⟩]
    (by decide) (by decide) (by decide) ⟨2, 1, 1, 1, 1⟩ (by decide)
  exact ⟨h.1, h.2.1, h.2.2.1, h.2.2.2⟩

/-- C10: a non-empty well-formed block (coinbase first, its inputs
carrying no referenced identifier) that is not skipped always reports
at least one fee-estimation candidate; hence once such a block is
processed, the driver's `candidate_count` is positive and the final
unguarded division by `candidate_count` (line 133) cannot divide by
zero. -/
theorem C10_candidate_division_safe (blocks : List (List Tx))
    (h : ∃ b ∈ blocks, coinbase_first b = true ∧ get_block_data b ≠ none) :
    (∀ b : List Tx, coinbase_first b = true → ∀ s : BlockStats,
        get_block_data b = some s → 1 ≤ s.candidates_count) ∧
      1 ≤ (fold_blocks blocks).candidate_count ∧
      pydiv ((fold_blocks blocks).candidate_parent_count : ℚ)
          ((fold_blocks blocks).candidate_count : ℚ) ≠
        Except.error RunError.zeroDivisionError := by
  obtain ⟨b, hb, hcb, hne⟩ := h
  cases hgb : get_block_data b with
  | none => exact absurd hgb hne
  | some s =>
    obtain ⟨l₁, l₂, rfl⟩ := List.append_of_mem hb
    have hcc : 1 ≤ (fold_blocks (l₁ ++ b :: l₂)).candidate_count := by
      unfold fold_blocks
      rw [List.map_append, List.foldl_append, List.map_cons, List.foldl_cons, hgb]
      have hstep : ∀ agg : Aggregate, 1 ≤ (updateAggregate agg (some s)).candidate_count := by
        intro agg
        have := coinbase_is_candidate b hcb s hgb
        show 1 ≤ agg.candidate_count + s.candidates_count
        omega
      exact (hstep _).trans (candidate_count_le_foldl (l₂.map get_block_data) _)
    refine ⟨fun b' hcb' s' hs' => coinbase_is_candidate b' hcb' s' hs', hcc, ?_⟩
    have hne0 : (((fold_blocks (l₁ ++ b :: l₂)).candidate_count : Nat) : ℚ) ≠ 0 :=
      Nat.cast_ne_zero.mpr (by omega)
    unfold pydiv
    rw [if_neg hne0]
    simp

/-- Witness for C10 at a concrete one-block run. -/
theorem C10_witness :
    (∃ b ∈ [[(⟨"coinbase", [none]⟩ : Tx), ⟨"a", [some "coinbase"]⟩]],
        coinbase_first b = true ∧ get_block_data b ≠ none) ∧
      1 ≤ (fold_blocks [[(⟨"coinbase", [none]⟩ : Tx), ⟨"a", [some "coinbase"]⟩]]).candidate_count ∧
      pydiv
          ((fold_blocks [[(⟨"coinbase", [none]⟩ : Tx), ⟨"a", [some "coinbase"]⟩]]).candidate_parent_count : ℚ)
          ((fold_blocks [[(⟨"coinbase", [none]⟩ : Tx), ⟨"a", [some "coinbase"]⟩]]).candidate_count : ℚ) ≠
        Except.error RunError.zeroDivisionError := by
  have h := C10_candidate_division_safe
    [[(⟨"coinbase", [none]⟩ : Tx), ⟨"a", [some "coinbase"]⟩]] (by decide)
  exact ⟨by decide, h.2.1, h.2.2⟩

/-- C8: the driver iterates exactly the heights from `start` to `stop`
inclusive, and the final accumulator is the direct arithmetic
recomputation over the non-empty per-block results: the five totals are
exact sums, and the four bounds are the exact attained maxima/minima of
the per-block child and parent percentage ratios. -/
theorem C8_range_and_exact_aggregate (start stop : Nat) (hle : start ≤ stop)
    (results : List (Option BlockStats)) (hne : results.filterMap id ≠ []) :
    (∀ h : Nat, h ∈ py_range start stop ↔ start ≤ h ∧ h ≤ stop) ∧
    (run_aggregate results).total_transactions =
      ((results.filterMap id).map BlockStats.txs_count).sum ∧
    (run_aggregate results).total_child_count =
      ((results.filterMap id).map BlockStats.child_count).sum ∧
    (run_aggregate results).total_parent_count =
      ((results.filterMap id).map BlockStats.parent_count).sum ∧
    (run_aggregate results).candidate_count =
      ((results.filterMap id).map BlockStats.candidates_count).sum ∧
    (run_aggregate results).candidate_parent_count =
      ((results.filterMap id).map BlockStats.candidates_parent_count).sum ∧
    ((run_aggregate results).max_child_percentage ∈
        (results.filterMap id).map child_percentage ∧
      ∀ s ∈ results.filterMap id,
        child_percentage s ≤ (run_aggregate results).max_child_percentage) ∧
    (∃ m, (run_aggregate results).min_child_percentage = some m ∧
      m ∈ (results.filterMap id).map child_percentage ∧
      ∀ s ∈ results.filterMap id, m ≤ child_percentage s) ∧
    ((run_aggregate results).max_parent_percentage ∈
        (results.filterMap id).map parent_percentage ∧
      ∀ s ∈ results.filterMap id,
        parent_percentage s ≤ (run_aggregate results).max_parent_percentage) ∧
    (∃ m, (run_aggregate results).min_parent_percentage = some m ∧
      m ∈ (results.filterMap id).map parent_percentage ∧
      ∀ s ∈ results.filterMap id, m ≤ parent_percentage s) := by
  have hrw := foldl_updateAggregate results initAggregate
  have hcne : (results.filterMap id).map child_percentage ≠ [] := by
    simpa [List.map_eq_nil_iff] using hne
  have hpne : (results.filterMap id).map parent_percentage ≠ [] := by
    simpa [List.map_eq_nil_iff] using hne
  have hcnn : ∀ x ∈ (results.filterMap id).map child_percentage, (0:ℚ) ≤ x := by
    intro x hx
    obtain ⟨s, _, rfl⟩ := List.mem_map.mp hx
    exact child_percentage_nonneg s
  have hpnn : ∀ x ∈ (results.filterMap id).map parent_percentage, (0:ℚ) ≤ x := by
    intro x hx
    obtain ⟨s, _, rfl⟩ := List.mem_map.mp hx
    exact parent_percentage_nonneg s
  have hmaxc := foldl_updateMax_zero_mem _ hcne hcnn
  have hmaxp := foldl_updateMax_zero_mem _ hpne hpnn
  obtain ⟨mc, hmc1, hmc2, hmc3⟩ := foldl_updateMin_none _ hcne
  obtain ⟨mp, hmp1, hmp2, hmp3⟩ := foldl_updateMin_none _ hpne
  refine ⟨?_, ?_, ?_, ?_, ?_, ?_, ⟨?_, ?_⟩, ⟨mc, ?_, hmc2, ?_⟩, ⟨?_, ?_⟩,
    ⟨mp, ?_, hmp2, ?_⟩⟩
  · intro h
    show h ∈ List.range' start (stop + 1 - start) ↔ start ≤ h ∧ h ≤ stop
    rw [List.mem_range'_1]
    omega
  · unfold run_aggregate; rw [hrw]; exact Nat.zero_add _
  · unfold run_aggregate; rw [hrw]; exact Nat.zero_add _
  · unfold run_aggregate; rw [hrw]; exact Nat.zero_add _
  · unfold run_aggregate; rw [hrw]; exact Nat.zero_add _
  · unfold run_aggregate; rw [hrw]; exact Nat.zero_add _
  · unfold run_aggregate; rw [hrw]; exact hmaxc.1
  · intro s hs
    unfold run_aggregate; rw [hrw]
    exact hmaxc.2 _ (List.mem_map_of_mem _ hs)
  · unfold run_aggregate; rw [hrw]; exact hmc1
  · intro s hs
    exact hmc3 _ (List.mem_map_of_mem _ hs)
  · unfold run_aggregate; rw [hrw]; exact hmaxp.1
  · intro s hs
    unfold run_aggregate; rw [hrw]
    exact hmaxp.2 _ (List.mem_map_of_mem _ hs)
  · unfold run_aggregate; rw [hrw]; exact hmp1
  · intro s hs
    exact hmp3 _ (List.mem_map_of_mem _ hs)

/-- Witness for C8 at a concrete range and a result sequence with
three non-empty blocks and one empty block. -/
theorem C8_witness :
    (1:Nat) ≤ 3 ∧
      sample_results.filterMap id ≠ [] ∧
      ((∀ h : Nat, h ∈ py_range 1 3 ↔ 1 ≤ h ∧ h ≤ 3) ∧
        (run_aggregate sample_results).total_transactions =
          ((sample_results.filterMap id).map BlockStats.txs_count).sum ∧
        (run_aggregate sample_results).total_child_count =
          ((sample_results.filterMap id).map BlockStats.child_count).sum ∧
        (run_aggregate sample_results).total_parent_count =
          ((sample_results.filterMap id).map BlockStats.parent_count).sum ∧
        (run_aggregate sample_results).candidate_count =
          ((sample_results.filterMap id).map BlockStats.candidates_count).sum ∧
        (run_aggregate sample_results).candidate_parent_count =
          ((sample_results.filterMap id).map BlockStats.candidates_parent_count).sum ∧
        ((run_aggregate sample_results).max_child_percentage ∈
            (sample_results.filterMap id).map child_percentage ∧
          ∀ s ∈ sample_results.filterMap id,
            child_percentage s ≤ (run_aggregate sample_results).max_child_percentage) ∧
        (∃ m, (run_aggregate sample_results).min_child_percentage = some m ∧
          m ∈ (sample_results.filterMap id).map child_percentage ∧
          ∀ s ∈ sample_results.filterMap id, m ≤ child_percentage s) ∧
        ((run_aggregate sample_results).max_parent_percentage ∈
            (sample_results.filterMap id).map parent_percentage ∧
          ∀ s ∈ sample_results.filterMap id,
            parent_percentage s ≤ (run_aggregate sample_results).max_parent_percentage) ∧
        (∃ m, (run_aggregate sample_results).min_parent_percentage = some m ∧
          m ∈ (sample_results.filterMap id).map parent_percentage ∧
          ∀ s ∈ sample_results.filterMap id, m ≤ parent_percentage s)) :=
  ⟨by decide, by decide,
    C8_range_and_exact_aggregate 1 3 (by decide) sample_results (by decide)⟩

end CountCpfps
